import Mathlib

/-!
Verification development for the action-script agent core: the incremental
linter (`src/core/incremental_linter.py`), the execution sandbox
(`src/core/action_script_execution_environment.py`), the shared state store
(`src/data_stores/global_state.py`), the control primitives
(`src/tools/core_functions.py`) and the correction loop (`main.py`).

The scripting dialect handled by the system is the restricted fragment the
spec describes: sequences of call statements over registered capability
names, with string-literal, identifier and attribute arguments.  The model
embeds `ast.parse` on that fragment as an executable lexer/parser pair;
scripts outside the fragment are treated as not-yet-parseable, exactly as
the linter treats a `SyntaxError` (keep buffering).
-/

/-- Whitespace characters stripped by the Python `str.lstrip()` call used in
the forbidden-construct check (core subset). -/
def isPyWs (c : Char) : Bool :=
  c = ' ' || c = '\t' || c = '\n' || c = '\r'

/-- Model of `str.lstrip()`: drop leading whitespace. -/
def lstripPy (cs : List Char) : List Char :=
  cs.dropWhile isPyWs

/-- `startsWithChars needle hay` is true when `needle` is a prefix of `hay`. -/
def startsWithChars : List Char → List Char → Bool
  | [], _ => true
  | _ :: _, [] => false
  | a :: as, b :: bs => a = b && startsWithChars as bs

/-- `containsSeq needle hay` is true when `needle` occurs contiguously inside
`hay`; this embeds the Python substring test `needle in hay`. -/
def containsSeq (needle : List Char) : List Char → Bool
  | [] => needle.isEmpty
  | c :: cs => startsWithChars needle (c :: cs) || containsSeq needle (c :: cs).tail

/-- The forbidden keyword searched for by the linter, with its trailing
space, as in `"import " in self.buffer.lstrip()`. -/
def forbiddenKw : List Char :=
  ['i', 'm', 'p', 'o', 'r', 't', ' ']

/-- The raw-text forbidden-construct check of `validate_stream`. -/
def forbiddenKwCheck (buf : List Char) : Bool :=
  containsSeq forbiddenKw (lstripPy buf)

theorem containsSeq_cons (needle : List Char) (c : Char) (cs : List Char) :
    containsSeq needle (c :: cs) =
      (startsWithChars needle (c :: cs) || containsSeq needle cs) := by
  simp [containsSeq]

theorem startsWithChars_append (needle xs ys : List Char)
    (h : startsWithChars needle xs = true) :
    startsWithChars needle (xs ++ ys) = true := by
  induction needle generalizing xs with
  | nil => simp [startsWithChars]
  | cons a as ih =>
    cases xs with
    | nil => simp [startsWithChars] at h
    | cons b bs =>
      simp only [startsWithChars, Bool.and_eq_true] at h ⊢
      exact ⟨h.1, ih bs h.2⟩

theorem containsSeq_append_left (needle xs ys : List Char)
    (h : containsSeq needle xs = true) :
    containsSeq needle (xs ++ ys) = true := by
  induction xs with
  | nil =>
    cases needle with
    | nil => cases ys <;> simp [containsSeq, startsWithChars]
    | cons a as => simp [containsSeq, List.isEmpty] at h
  | cons c cs ih =>
    rw [containsSeq_cons] at h
    rw [List.cons_append, containsSeq_cons]
    rcases Bool.or_eq_true_iff.mp h with h1 | h2
    · exact Bool.or_eq_true_iff.mpr (Or.inl (startsWithChars_append _ _ _ h1))
    · exact Bool.or_eq_true_iff.mpr (Or.inr (ih h2))

theorem containsSeq_append_right (needle xs ys : List Char)
    (h : containsSeq needle ys = true) :
    containsSeq needle (xs ++ ys) = true := by
  induction xs with
  | nil => simpa using h
  | cons c cs ih =>
    rw [List.cons_append, containsSeq_cons]
    exact Bool.or_eq_true_iff.mpr (Or.inr ih)

theorem containsSeq_lstrip (needle buf : List Char)
    (h : containsSeq needle (lstripPy buf) = true) :
    containsSeq needle buf = true := by
  induction buf with
  | nil => simpa [lstripPy] using h
  | cons c cs ih =>
    by_cases hws : isPyWs c = true
    · rw [containsSeq_cons]
      refine Bool.or_eq_true_iff.mpr (Or.inr (ih ?_))
      simpa [lstripPy, List.dropWhile, hws] using h
    · simpa [lstripPy, List.dropWhile, hws] using h

theorem forbiddenKwCheck_mono_prefix (xs ys : List Char)
    (h : containsSeq forbiddenKw (xs ++ ys) = false) :
    forbiddenKwCheck xs = false := by
  by_contra hne
  have hx : forbiddenKwCheck xs = true := by
    cases hfk : forbiddenKwCheck xs with
    | false => exact absurd hfk hne
    | true => rfl
  have h1 : containsSeq forbiddenKw xs = true :=
    containsSeq_lstrip _ _ hx
  have := containsSeq_append_left forbiddenKw xs ys h1
  rw [this] at h
  exact Bool.noConfusion h

/-- Lexical tokens of the restricted scripting dialect (the fragment of
Python syntax that the generated Action Scripts use). -/
inductive Tok where
  | ident (s : String)
  | lpar
  | rpar
  | comma
  | dot
  | strTok (s : String)
  | newline
deriving DecidableEq, Repr

/-- First character of a Python identifier. -/
def isIdentStart (c : Char) : Bool :=
  c.isAlpha || c = '_'

/-- Subsequent character of a Python identifier. -/
def isIdentChar (c : Char) : Bool :=
  c.isAlpha || c.isDigit || c = '_'

/-- Fuel-driven lexer for the dialect.  Returns `none` on any character
sequence outside the fragment (which the linter model then treats as
not-yet-valid code, the same way `ast.parse` raising `SyntaxError` is
treated).  An unterminated string literal also yields `none`. -/
def lexFuel : Nat → List Char → Option (List Tok)
  | 0, _ => none
  | _ + 1, [] => some []
  | fuel + 1, c :: cs =>
    if c = ' ' || c = '\t' then lexFuel fuel cs
    else if c = '\n' then
      (lexFuel fuel cs).map (Tok.newline :: ·)
    else if c = '(' then
      (lexFuel fuel cs).map (Tok.lpar :: ·)
    else if c = ')' then
      (lexFuel fuel cs).map (Tok.rpar :: ·)
    else if c = ',' then
      (lexFuel fuel cs).map (Tok.comma :: ·)
    else if c = '.' then
      (lexFuel fuel cs).map (Tok.dot :: ·)
    else if c = '"' then
      let sp := cs.span (fun d => !(d = '"'))
      match sp.2 with
      | '"' :: rest => (lexFuel fuel rest).map (Tok.strTok ⟨sp.1⟩ :: ·)
      | _ => none
    else if isIdentStart c then
      let sp := (c :: cs).span isIdentChar
      (lexFuel fuel sp.2).map (Tok.ident ⟨sp.1⟩ :: ·)
    else none

/-- Tokenize a character buffer. -/
def lexChars (cs : List Char) : Option (List Tok) :=
  lexFuel (cs.length + 1) cs

/-- Atomic expressions of the dialect: bare identifiers, single attribute
accesses, and double-quoted string literals. -/
inductive Atom where
  | aname (s : String)
  | aattr (base field : String)
  | astr (s : String)
deriving DecidableEq, Repr

/-- Expressions/statements of the dialect, mirroring the shapes of the
Python AST nodes the linter inspects: a statement is either a bare atom
(`ast.Expr` over a non-call expression) or a call whose function position
is an atom (`ast.Call` with `func` a `Name`, `Attribute` or constant). -/
inductive PyExpr where
  | atomE (a : Atom)
  | call (fn : Atom) (args : List Atom)
deriving DecidableEq, Repr

/-- Parse one atom from a token list. -/
def parseAtom : List Tok → Option (Atom × List Tok)
  | Tok.ident b :: Tok.dot :: Tok.ident f :: rest => some (Atom.aattr b f, rest)
  | Tok.ident s :: rest => some (Atom.aname s, rest)
  | Tok.strTok s :: rest => some (Atom.astr s, rest)
  | _ => none

/-- Parse a comma-separated argument list, consuming the closing
parenthesis. -/
def parseArgs : Nat → List Tok → Option (List Atom × List Tok)
  | 0, _ => none
  | _ + 1, Tok.rpar :: rest => some ([], rest)
  | fuel + 1, toks =>
    match parseAtom toks with
    | none => none
    | some (a, rest) =>
      match rest with
      | Tok.rpar :: rest2 => some ([a], rest2)
      | Tok.comma :: rest2 =>
        match parseArgs fuel rest2 with
        | some (as, rest3) => some (a :: as, rest3)
        | none => none
      | _ => none

/-- Parse one statement: an atom optionally followed by a call argument
list. -/
def parseStmt (toks : List Tok) : Option (PyExpr × List Tok) :=
  match parseAtom toks with
  | none => none
  | some (a, rest) =>
    match rest with
    | Tok.lpar :: rest2 =>
      match parseArgs (rest2.length + 1) rest2 with
      | some (args, rest3) => some (PyExpr.call a args, rest3)
      | none => none
    | _ => some (PyExpr.atomE a, rest)

/-- Parse a newline-separated statement sequence. -/
def parseStmts : Nat → List Tok → Option (List PyExpr)
  | 0, _ => none
  | _ + 1, [] => some []
  | fuel + 1, Tok.newline :: rest => parseStmts fuel rest
  | fuel + 1, toks =>
    match parseStmt toks with
    | none => none
    | some (e, rest) =>
      match rest with
      | [] => some [e]
      | Tok.newline :: rest2 =>
        match parseStmts fuel rest2 with
        | some es => some (e :: es)
        | none => none
      | _ => none

/-- The model of `ast.parse` on the restricted dialect: `none` stands for
`SyntaxError` (possibly-incomplete code), `some prog` for a successfully
parsed module body. -/
def parseProgram (cs : List Char) : Option (List PyExpr) :=
  match lexChars cs with
  | none => none
  | some toks => parseStmts (toks.length + 1) toks

example : parseProgram ("bad()").data = some [PyExpr.call (Atom.aname "bad") []] := by decide
example : parseProgram ("bad()" ++ "\n").data = some [PyExpr.call (Atom.aname "bad") []] := by decide
example : parseProgram ("bad(").data = none := by decide
example : parseProgram "".data = some [] := by decide
example : parseProgram ("bad()" ++ "\n" ++ "respond(").data = none := by decide
example :
    parseProgram ("reflect(" ++ "\"" ++ "a b" ++ "\"" ++ ")" ++ "\n" ++ "respond(" ++ "\"" ++ "X" ++ "\"" ++ ")").data
      = some [PyExpr.call (Atom.aname "reflect") [Atom.astr "a b"],
              PyExpr.call (Atom.aname "respond") [Atom.astr "X"]] := by decide
example :
    parseProgram ("obj.method(" ++ "\"" ++ "x" ++ "\"" ++ ")").data
      = some [PyExpr.call (Atom.aattr "obj" "method") [Atom.astr "x"]] := by decide
example : parseProgram ("search_web(x, y)").data
      = some [PyExpr.call (Atom.aname "search_web") [Atom.aname "x", Atom.aname "y"]] := by decide

/-- The allow-list test `_check_function_calls` applies to one statement:
a call whose function position is a bare identifier (`ast.Name`) outside
the allow-list is flagged with that identifier; calls through any other
expression shape (e.g. `ast.Attribute`) are never inspected, and non-call
statements carry no violation. -/
def checkStmtCall (allowed : List String) : PyExpr → Option String
  | PyExpr.call (Atom.aname f) _ => if f ∈ allowed then none else some f
  | _ => none

/-- Model of `IncrementalLinter._check_function_calls` on a parsed module:
walk the statements in order and report the first disallowed bare-name
call target, if any. -/
def checkFunctionCalls (allowed : List String) : List PyExpr → Option String
  | [] => none
  | e :: es =>
    match checkStmtCall allowed e with
    | some f => some f
    | none => checkFunctionCalls allowed es

/-- True when a statement contains no call whose function position is a
bare identifier (the only shape `_check_function_calls` inspects). -/
def noNameCallStmt : PyExpr → Bool
  | PyExpr.call (Atom.aname _) _ => false
  | _ => true

theorem checkFunctionCalls_of_noNameCalls (allowed : List String)
    (prog : List PyExpr) (h : prog.all noNameCallStmt = true) :
    checkFunctionCalls allowed prog = none := by
  induction prog with
  | nil => rfl
  | cons e es ih =>
    rw [List.all_cons, Bool.and_eq_true] at h
    have he : checkStmtCall allowed e = none := by
      cases e with
      | atomE a => rfl
      | call fn args =>
        cases fn with
        | aname s => simp [noNameCallStmt] at h
        | aattr b f => rfl
        | astr s => rfl
    simp [checkFunctionCalls, he, ih h.2]

/-- Errors raised by the linter (`LinterError` in the source), tagged by
raise site; each constructor carries the accumulated code passed as the
`code` attribute, and the disallowed-call constructors carry the offending
identifier interpolated into the Python message
`Disallowed function call: ...`.  The two `final` constructors model the
end-of-stream re-raise `Final validation failed: ...`. -/
inductive LinterErr where
  | forbiddenFound (code : List Char)
  | disallowedCall (fname : String) (code : List Char)
  | finalSyntaxError (code : List Char)
  | finalDisallowedCall (fname : String) (code : List Char)
deriving DecidableEq, Repr

/-- The per-token body of `validate_stream` once a token has been appended
to the buffer: the raw forbidden-keyword test runs first; then the buffer
is parsed, a `SyntaxError` being ignored (incomplete code), and a parsed
buffer has its call targets checked against the allow-list. -/
def stepCheck (allowed : List String) (buf : List Char) : Option LinterErr :=
  if forbiddenKwCheck buf then some (.forbiddenFound buf)
  else
    match parseProgram buf with
    | none => none
    | some prog =>
      match checkFunctionCalls allowed prog with
      | some f => some (.disallowedCall f buf)
      | none => none

/-- The trailing full-buffer check of `validate_stream`: any exception
(syntax error or allow-list violation) is wrapped into the
`Final validation failed` error. -/
def finalCheck (allowed : List String) (buf : List Char) : Option LinterErr :=
  match parseProgram buf with
  | none => some (.finalSyntaxError buf)
  | some prog =>
    match checkFunctionCalls allowed prog with
    | some f => some (.finalDisallowedCall f buf)
    | none => none

/-- The generator loop of `validate_stream`, with the accumulated buffer
made explicit.  Returns the tokens yielded to the consumer (each yielded
only after the checks on the extended buffer pass) and the terminal error,
if any. -/
def validateGo (allowed : List String) (buf : List Char) :
    List (List Char) → List (List Char) × Option LinterErr
  | [] => ([], finalCheck allowed buf)
  | t :: ts =>
    let buf2 := buf ++ t
    match stepCheck allowed buf2 with
    | some e => ([], some e)
    | none =>
      let r := validateGo allowed buf2 ts
      (t :: r.1, r.2)

/-- Model of `IncrementalLinter.validate_stream`: the buffer starts empty
for each stream. -/
def validateStream (allowed : List String) (ts : List (List Char)) :
    List (List Char) × Option LinterErr :=
  validateGo allowed [] ts

/-- Buffer contents after the token at index `i` has been appended. -/
def bufAt (ts : List (List Char)) (i : Nat) : List Char :=
  (ts.take (i + 1)).flatten

example :
    validateStream ["respond"] [("bad(").data, (")").data]
      = ([("bad(").data], some (.disallowedCall "bad" ("bad()").data)) := by decide
example :
    validateStream ["respond"] [("respond(" ++ "\"" ++ "hi" ++ "\"" ++ ")").data]
      = ([("respond(" ++ "\"" ++ "hi" ++ "\"" ++ ")").data], none) := by decide
example :
    (validateStream ["respond"] [("x = 3").data]).2
      = some (.finalSyntaxError ("x = 3").data) := by decide

deriving instance DecidableEq for Except

/-- Runtime values flowing through a script.  External tool results outside
the modelled shapes (dicts of search results, file contents, ...) are
represented by `vraw` tagged payloads; `vfunc`/`vbuiltinF` are the
function objects a bare name evaluates to. -/
inductive Value where
  | vnone
  | vstr (s : String)
  | vbool (b : Bool)
  | vfunc (name : String)
  | vbuiltinF (name : String)
  | vraw (tag : String)
deriving DecidableEq, Repr

/-- A committed state record: `result` plus the `metadata` fields
`timestamp_utc` and `turn_id`.  The source draws `turn_id` from
`uuid.uuid4()` and the timestamp from the wall clock; the model draws both
from a monotone counter held in the execution state, which captures the
intended semantics that each generated id is fresh (never equal to an id
generated earlier in the session). -/
structure StateEntry where
  result : Value
  timestampUtc : Nat
  turnId : Nat
deriving DecidableEq, Repr

/-- The `GlobalState._state` dictionary, as an association list with
insertion order (Python dicts preserve it). -/
abbrev Store := List (String × StateEntry)

/-- Model of dict assignment `self._state[key] = value`: replace in place
when the key is present, append otherwise. -/
def updateState (st : Store) (k : String) (v : StateEntry) : Store :=
  if st.any (fun p => p.1 = k) then
    st.map (fun p => if p.1 = k then (k, v) else p)
  else
    st ++ [(k, v)]

/-- Dict lookup on the store. -/
def lookupState (st : Store) (k : String) : Option StateEntry :=
  (st.find? (fun p => p.1 = k)).map (·.2)

/-- Model of `GlobalState.delete_key`: remove the key if present,
reporting whether a deletion happened. -/
def deleteKey (st : Store) (k : String) : Store × Bool :=
  if st.any (fun p => p.1 = k) then
    (st.filter (fun p => !(p.1 = k)), true)
  else
    (st, false)

/-- Number of entries stored under a key. -/
def countKey (st : Store) (k : String) : Nat :=
  st.countP (fun p => p.1 = k)

/-- Execution-environment state: the shared store plus the fresh-id
counter modelling the uuid/timestamp draws. -/
structure ExecState where
  store : Store
  nextId : Nat
deriving DecidableEq, Repr

/-- The callables installed in the execution scope.  External tools
(`load_tools()`) are pure functions from argument values to a result or a
raised exception, per the spec's capability-handler contract; the five
core functions of `AgentController._get_core_functions` are given their
own tags because `respond`/`continue_turn` raise control-flow signals and
`delete_state_key`/`summarize_state` are bound to the `GlobalState`
instance. -/
inductive ScopeFn where
  | pureTool (f : List Value → Except String Value)
  | respondFn
  | continueTurnFn
  | reflectFn
  | deleteStateKeyFn
  | summarizeStateFn

/-- The execution scope: a name-to-callable dictionary. -/
abbrev Scope := List (String × ScopeFn)

/-- Dict assignment for scopes. -/
def scopeSet (sc : Scope) (k : String) (v : ScopeFn) : Scope :=
  if sc.any (fun p => p.1 = k) then
    sc.map (fun p => if p.1 = k then (k, v) else p)
  else
    sc ++ [(k, v)]

/-- Model of Python `dict.update` used by `_create_execution_scope`. -/
def scopeUpdate (sc : Scope) (entries : List (String × ScopeFn)) : Scope :=
  entries.foldl (fun acc p => scopeSet acc p.1 p.2) sc

/-- Model of `ActionScriptExecutionEnvironment._create_execution_scope`:
start from an empty dict, `update` with the tools, then with the core
functions. -/
def createExecutionScope (tools coreFns : List (String × ScopeFn)) : Scope :=
  scopeUpdate (scopeUpdate ([] : Scope) tools) coreFns

/-- Scope lookup. -/
def scopeFind (sc : Scope) (k : String) : Option ScopeFn :=
  (sc.find? (fun p => p.1 = k)).map (·.2)

/-- Names of the scope dictionary. -/
def scopeNames (sc : Scope) : List String :=
  sc.map (·.1)

/-- A representative subset of the names CPython's `exec` makes resolvable
by silently inserting `__builtins__` into a globals dictionary that lacks
that key (Python language reference, `exec` documentation).  The source
passes the bare tools-plus-core dictionary to `exec`, so these names
resolve inside every executed script. -/
def pythonBuiltinNames : List String :=
  ["open", "eval", "exec", "print", "len", "getattr", "globals", "__import__"]

/-- Terminal control signals (`ControlFlowException` subclasses):
`RespondException` carrying the response and `ContinueTurnException`. -/
inductive Sig where
  | respondSig (v : Value)
  | continueTurnSig
deriving DecidableEq, Repr

/-- A raised exception during evaluation: either a control-flow signal or
an ordinary Python exception carrying its message. -/
inductive ExecInterrupt where
  | ctl (s : Sig)
  | exc (msg : String)
deriving DecidableEq, Repr

/-- Behaviour of each scope callable before wrapping, acting on the store
it may be bound to.  `respond` and `continue_turn` raise their signals;
`reflect` logs and returns `None`; `delete_state_key` mutates the bound
`GlobalState` and returns a boolean; `summarize_state` consults the
external LLM collaborator (modelled as an opaque summary string).  A pure
tool may return a value or raise. -/
def applyScopeFn (fn : ScopeFn) (args : List Value) (store : Store) :
    Except ExecInterrupt Value × Store :=
  match fn with
  | .pureTool f =>
    match f args with
    | .ok v => (.ok v, store)
    | .error m => (.error (.exc m), store)
  | .respondFn =>
    match args with
    | [v] => (.error (.ctl (.respondSig v)), store)
    | _ => (.error (.exc "respond: wrong arity"), store)
  | .continueTurnFn =>
    match args with
    | [] => (.error (.ctl .continueTurnSig), store)
    | _ => (.error (.exc "continue_turn: wrong arity"), store)
  | .reflectFn =>
    match args with
    | [_] => (.ok .vnone, store)
    | _ => (.error (.exc "reflect: wrong arity"), store)
  | .deleteStateKeyFn =>
    match args with
    | [.vstr k] =>
      let r := deleteKey store k
      (.ok (.vbool r.2), r.1)
    | [_] => (.ok (.vbool false), store)
    | _ => (.error (.exc "delete_state_key: wrong arity"), store)
  | .summarizeStateFn =>
    match args with
    | [] => (.ok (.vstr "state summary"), store)
    | _ => (.error (.exc "summarize_state: wrong arity"), store)

/-- Model of `ActionScriptExecutionEnvironment._wrap_tool_call`: run the
underlying callable; when it returns a non-`None` result, synthesize a
`StateEntry` with a fresh turn id and timestamp and commit it to the store
under the callable's scope name.  Exceptions (control signals included)
propagate without a commit. -/
def wrapToolCall (name : String) (fn : ScopeFn) (args : List Value)
    (st : ExecState) : Except ExecInterrupt Value × ExecState :=
  let r := applyScopeFn fn args st.store
  match r.1 with
  | .ok v =>
    if v = .vnone then (.ok v, { st with store := r.2 })
    else
      let entry : StateEntry :=
        { result := v, timestampUtc := st.nextId, turnId := st.nextId }
      (.ok v, { store := updateState r.2 name entry, nextId := st.nextId + 1 })
  | .error i => (.error i, { st with store := r.2 })

/-- Evaluate an atomic expression.  A bare name resolves through the
globals dictionary passed to `exec` and then through the injected
`__builtins__`; an unresolvable name is a `NameError`, and string
literals evaluate to themselves.  Attribute access is modelled
*conservatively* as a raised exception: CPython would resolve the real
attributes of the in-scope function objects (for example
`search_web.__call__`, which when called re-invokes the wrapped
capability), so statements relying on attribute values lie outside this
model, and the store-preservation theorem below excludes them by
hypothesis rather than relying on this collapse. -/
def evalAtom (sc : Scope) : Atom → Except String Value
  | .aname s =>
    if (scopeNames sc).contains s then .ok (.vfunc s)
    else if pythonBuiltinNames.contains s then .ok (.vbuiltinF s)
    else .error ("NameError: name " ++ s ++ " is not defined")
  | .aattr b f =>
    if (scopeNames sc).contains b || pythonBuiltinNames.contains b then
      .error ("AttributeError: " ++ b ++ "." ++ f)
    else .error ("NameError: name " ++ b ++ " is not defined")
  | .astr s => .ok (.vstr s)

/-- Evaluate an argument list left to right. -/
def evalAtoms (sc : Scope) : List Atom → Except String (List Value)
  | [] => .ok []
  | a :: as =>
    match evalAtom sc a with
    | .error m => .error m
    | .ok v =>
      match evalAtoms sc as with
      | .error m => .error m
      | .ok vs => .ok (v :: vs)

/-- Execute one statement of the script against the wrapped scope.  Every
scope entry was wrapped by `execute_script`, so a call dispatched to a
scope name goes through `wrapToolCall`.  Calls to injected builtins are
not wrapped (they never commit a `StateEntry` of their own), but their
host-level behaviour is outside the model — CPython would *execute* them,
and some (`eval`, `exec`) can reach the scope's callables and hence the
store — so they are conservatively mapped to a raised exception here, and
the store-preservation theorem below excludes builtin calls by hypothesis
rather than relying on this collapse.  Calling a non-function value is a
`TypeError` in both CPython and the model. -/
def evalStmt (sc : Scope) (e : PyExpr) (st : ExecState) :
    Except ExecInterrupt Value × ExecState :=
  match e with
  | .atomE a =>
    match evalAtom sc a with
    | .ok v => (.ok v, st)
    | .error m => (.error (.exc m), st)
  | .call fnA args =>
    match evalAtom sc fnA with
    | .error m => (.error (.exc m), st)
    | .ok fv =>
      match evalAtoms sc args with
      | .error m => (.error (.exc m), st)
      | .ok vs =>
        match fv with
        | .vfunc name =>
          match scopeFind sc name with
          | some fn => wrapToolCall name fn vs st
          | none => (.error (.exc ("NameError: name " ++ name ++ " is not defined")), st)
        | .vbuiltinF name =>
          (.error (.exc ("host builtin call outside model: " ++ name)), st)
        | _ => (.error (.exc "TypeError: object is not callable"), st)

/-- Outcome of `execute_script`: a normal return (all statements ran, no
signal), a propagated `ControlFlowException`, or a
`ScriptExecutionError` wrapping any other exception. -/
inductive ExecResult where
  | normal
  | signal (s : Sig)
  | scriptError (msg : String)
deriving DecidableEq, Repr

/-- Model of `ActionScriptExecutionEnvironment.execute_script` on a parsed
script: run the statements in order; a `ControlFlowException` is re-raised
as a signal, any other exception is wrapped into `ScriptExecutionError`,
and falling off the end is a normal return. -/
def executeScript (sc : Scope) : List PyExpr → ExecState → ExecResult × ExecState
  | [], st => (.normal, st)
  | e :: rest, st =>
    match evalStmt sc e st with
    | (.ok _, st2) => executeScript sc rest st2
    | (.error (.ctl s), st2) => (.signal s, st2)
    | (.error (.exc m), st2) =>
      (.scriptError ("Script execution failed with error: " ++ m), st2)

/-- The tool names returned by `load_tools()` in
`src/tools/tool_definitions.py`. -/
def loadToolNames : List String :=
  ["read_files", "write_file", "list_files", "search_web",
   "find_function_definitions", "find_class_definitions", "find_imports"]

/-- Sample registered tools: the seven externally implemented capabilities
of `load_tools()`, each modelled as a pure handler returning an opaque
non-`None` result (their host-side behaviour — file and web access — is
external to the core per the spec). -/
def sampleTools : List (String × ScopeFn) :=
  loadToolNames.map (fun n => (n, ScopeFn.pureTool (fun _ => .ok (.vraw (n ++ " result")))))

/-- The core-function dictionary built by
`AgentController._get_core_functions`. -/
def coreFunctionsScope : List (String × ScopeFn) :=
  [("respond", ScopeFn.respondFn),
   ("continue_turn", ScopeFn.continueTurnFn),
   ("reflect", ScopeFn.reflectFn),
   ("delete_state_key", ScopeFn.deleteStateKeyFn),
   ("summarize_state", ScopeFn.summarizeStateFn)]

/-- The execution scope the controller builds for the sandbox. -/
def sampleScope : Scope :=
  createExecutionScope sampleTools coreFunctionsScope

/-- The linter allow-list built in `AgentController.__init__`:
`list(all_tools_for_prompt.keys())`, i.e. the tool names plus the five
core-function names. -/
def standardAllowed : List String :=
  loadToolNames ++ ["respond", "continue_turn", "reflect", "delete_state_key", "summarize_state"]

/-- The session starts with an empty `GlobalState` and a fresh id
supply. -/
def emptyExecState : ExecState :=
  { store := [], nextId := 0 }

/-- Outcome of one attempt of the inner correction loop of
`AgentController.run`: a `LinterError` during streaming, a
`ScriptExecutionError` (either a wrapped runtime failure or the
missing-completion-signal failure raised when `execute_script` returns
normally), or one of the two control signals. -/
inductive AttemptResult where
  | linterRejected (e : LinterErr)
  | execFailed (msg : String)
  | respondedA (v : Value)
  | continuedA
deriving DecidableEq, Repr

/-- The `ScriptExecutionError` message raised by the controller when a
script runs to completion without a control signal. -/
def missingCompletionMsg : String :=
  "Script completed without calling respond() or continue_turn()."

/-- One attempt of the correction loop: stream the generated tokens
through the linter; on success assemble the script, execute it, and
convert a normal return into the missing-completion
`ScriptExecutionError`.  A linter rejection executes nothing, so it
leaves the execution state untouched.  The dead `parseProgram = none`
branch mirrors `exec` raising a `SyntaxError`, which `execute_script`
would wrap into a `ScriptExecutionError` (unreachable because the
linter's final check has already parsed the full buffer). -/
def runAttempt (allowed : List String) (sc : Scope) (tokens : List (List Char))
    (st : ExecState) : AttemptResult × ExecState :=
  match (validateStream allowed tokens).2 with
  | some e => (.linterRejected e, st)
  | none =>
    match parseProgram tokens.flatten with
    | none => (.execFailed "Script execution failed with error: invalid syntax", st)
    | some prog =>
      match executeScript sc prog st with
      | (.normal, st2) => (.execFailed missingCompletionMsg, st2)
      | (.signal (.respondSig v), st2) => (.respondedA v, st2)
      | (.signal .continueTurnSig, st2) => (.continuedA, st2)
      | (.scriptError m, st2) => (.execFailed m, st2)

/-- How one turn of the correction loop ends: a final response, a
continue-turn handoff, or abandonment after the attempt bound. -/
inductive TurnOutcome where
  | respondedT (v : Value)
  | continuedT
  | abortedT
deriving DecidableEq, Repr

/-- The inner `while correction_attempts < max_correction_attempts` loop
of `AgentController.run`, recursing on the number of attempts remaining
(`3 - correction_attempts`).  `gen k` is the token stream the generator
produces for attempt number `k`; failed attempts feed back and retry,
signals end the turn, and exhausting the bound aborts it. -/
def correctionLoopGo (allowed : List String) (sc : Scope)
    (gen : Nat → List (List Char)) :
    Nat → Nat → ExecState → TurnOutcome × ExecState
  | 0, _, st => (.abortedT, st)
  | remaining + 1, idx, st =>
    match runAttempt allowed sc (gen idx) st with
    | (.linterRejected _, st2) => correctionLoopGo allowed sc gen remaining (idx + 1) st2
    | (.execFailed _, st2) => correctionLoopGo allowed sc gen remaining (idx + 1) st2
    | (.respondedA v, st2) => (.respondedT v, st2)
    | (.continuedA, st2) => (.continuedT, st2)

/-- One turn of the correction loop, starting with zero attempts used and
the bound `max_correction_attempts = 3`. -/
def correctionLoop (allowed : List String) (sc : Scope)
    (gen : Nat → List (List Char)) (st : ExecState) : TurnOutcome × ExecState :=
  correctionLoopGo allowed sc gen 3 0 st

example :
    executeScript sampleScope
      [PyExpr.call (Atom.aname "reflect") [Atom.astr "plan"],
       PyExpr.call (Atom.aname "respond") [Atom.astr "done"]] emptyExecState
      = (.signal (.respondSig (.vstr "done")), emptyExecState) := by decide

example :
    executeScript sampleScope
      [PyExpr.call (Atom.aname "search_web") [Atom.astr "x"]] emptyExecState
      = (.normal,
         { store := [("search_web",
             { result := .vraw "search_web result", timestampUtc := 0, turnId := 0 })],
           nextId := 1 }) := by decide

example :
    (executeScript sampleScope
      [PyExpr.call (Atom.aname "search_web") [Atom.astr "x"],
       PyExpr.call (Atom.aname "delete_state_key") [Atom.astr "search_web"],
       PyExpr.call (Atom.aname "respond") [Atom.astr "done"]] emptyExecState).2.store
      = [("delete_state_key",
          { result := .vbool true, timestampUtc := 1, turnId := 1 })] := by decide

example :
    (correctionLoop ["respond"] sampleScope (fun _ => [("bad()").data]) emptyExecState)
      = (.abortedT, emptyExecState) := by decide

example :
    evalAtom sampleScope (.aname "open") = .ok (.vbuiltinF "open") := by decide

theorem validateGo_yield_all (allowed : List String) :
    ∀ (ts : List (List Char)) (buf : List Char),
      (∀ j, j < ts.length → stepCheck allowed (buf ++ (ts.take (j + 1)).flatten) = none) →
      validateGo allowed buf ts = (ts, finalCheck allowed (buf ++ ts.flatten)) := by
  intro ts
  induction ts with
  | nil => intro buf _; simp [validateGo]
  | cons t ts ih =>
    intro buf h
    have h0 : stepCheck allowed (buf ++ t) = none := by
      have := h 0 (by simp)
      simpa using this
    have ih2 := ih (buf ++ t) (fun j hj => by
      have := h (j + 1) (by simpa using Nat.succ_lt_succ hj)
      simpa [List.append_assoc] using this)
    simp [validateGo, h0, ih2, List.append_assoc]

theorem validateGo_raise (allowed : List String) :
    ∀ (ts : List (List Char)) (i : Nat) (buf : List Char) (e : LinterErr),
      i < ts.length →
      (∀ j, j < i → stepCheck allowed (buf ++ (ts.take (j + 1)).flatten) = none) →
      stepCheck allowed (buf ++ (ts.take (i + 1)).flatten) = some e →
      validateGo allowed buf ts = (ts.take i, some e) := by
  intro ts
  induction ts with
  | nil => intro i buf e hi _ _; simp at hi
  | cons t ts ih =>
    intro i buf e hi hprev hfire
    cases i with
    | zero =>
      have h0 : stepCheck allowed (buf ++ t) = some e := by simpa using hfire
      simp [validateGo, h0]
    | succ i2 =>
      have h0 : stepCheck allowed (buf ++ t) = none := by
        have := hprev 0 (Nat.succ_pos _)
        simpa using this
      have ih2 := ih i2 (buf ++ t) e (by simpa using Nat.lt_of_succ_lt_succ hi)
        (fun j hj => by
          have := hprev (j + 1) (Nat.succ_lt_succ hj)
          simpa [List.append_assoc] using this)
        (by simpa [List.append_assoc] using hfire)
      simp [validateGo, h0, ih2]

/-- Allow-list status of the buffer after token `j`: true when the buffer
either does not yet parse or parses with every bare-name call target in
the allow-list. -/
def prefixCallsOk (allowed : List String) (ts : List (List Char)) (j : Nat) : Bool :=
  match parseProgram (bufAt ts j) with
  | some prog => (checkFunctionCalls allowed prog).isNone
  | none => true

/-- True when the buffer after token `j` either does not parse or parses
into statements none of which is a call through a bare identifier. -/
def prefixNoNameCalls (ts : List (List Char)) (j : Nat) : Bool :=
  match parseProgram (bufAt ts j) with
  | some prog => prog.all noNameCallStmt
  | none => true

theorem validateGo_no_name_call_err (allowed : List String) :
    ∀ (ts : List (List Char)) (buf : List Char),
      (∀ j, j ≤ ts.length →
        (match parseProgram (buf ++ (ts.take (j + 1)).flatten) with
         | some prog => prog.all noNameCallStmt
         | none => true) = true) →
      ∀ f c, (validateGo allowed buf ts).2 ≠ some (.disallowedCall f c) ∧
             (validateGo allowed buf ts).2 ≠ some (.finalDisallowedCall f c) := by
  intro ts
  induction ts with
  | nil =>
    intro buf h f c
    have h0 := h 0 (by simp)
    simp only [List.take_nil, List.flatten_nil, List.append_nil] at h0
    cases hp : parseProgram buf with
    | none => simp [validateGo, finalCheck, hp]
    | some prog =>
      rw [hp] at h0
      have := checkFunctionCalls_of_noNameCalls allowed prog h0
      simp [validateGo, finalCheck, hp, this]
  | cons t ts ih =>
    intro buf h f c
    have h0 := h 0 (by simp)
    simp only [List.take_succ_cons, List.take_zero, List.flatten_cons, List.flatten_nil,
      List.append_nil] at h0
    have hrest : ∀ j, j ≤ ts.length →
        (match parseProgram (buf ++ t ++ (ts.take (j + 1)).flatten) with
         | some prog => prog.all noNameCallStmt
         | none => true) = true := by
      intro j hj
      have := h (j + 1) (by simpa using Nat.succ_le_succ hj)
      simpa [List.append_assoc] using this
    have ih2 := ih (buf ++ t) hrest f c
    by_cases hkw : forbiddenKwCheck (buf ++ t) = true
    · simp [validateGo, stepCheck, hkw]
    · cases hp : parseProgram (buf ++ t) with
      | none =>
        simpa [validateGo, stepCheck, hkw, hp] using ih2
      | some prog =>
        rw [hp] at h0
        have hnone := checkFunctionCalls_of_noNameCalls allowed prog h0
        simpa [validateGo, stepCheck, hkw, hp, hnone] using ih2

/-- C2, counterexample.  The claim says `validate_stream` raises no later
than the first stream position at which the offending call expression is
syntactically complete.  In the stream below the call `bad()` to the
unregistered name `bad` is complete inside token 0 (a parseable prefix of
the token-0 buffer already contains it), but the token-0 buffer as a whole
ends in the incomplete `respond(`, so `ast.parse` fails, the allow-list
check is skipped, and token 0 is yielded; the error is only raised while
processing token 1, one position later than the claim requires. -/
theorem c2_counterexample_late_raise :
    (startsWithChars ("bad()" ++ "\n").data
        (bufAt [("bad()" ++ "\n" ++ "respond(").data, ("\"" ++ "hi" ++ "\"" ++ ")").data] 0)
      = true) ∧
    parseProgram ("bad()" ++ "\n").data = some [PyExpr.call (Atom.aname "bad") []] ∧
    (validateStream standardAllowed
        [("bad()" ++ "\n" ++ "respond(").data, ("\"" ++ "hi" ++ "\"" ++ ")").data]).1.length = 1 ∧
    (validateStream standardAllowed
        [("bad()" ++ "\n" ++ "respond(").data, ("\"" ++ "hi" ++ "\"" ++ ")").data]).2
      = some (.disallowedCall "bad"
          (bufAt [("bad()" ++ "\n" ++ "respond(").data, ("\"" ++ "hi" ++ "\"" ++ ")").data] 1) ) := by
  decide

/-- C2, amended: if no earlier token triggers a violation, then at the
first stream position whose accumulated buffer is fully parseable and
contains a call to an unregistered bare name, `validate_stream` raises a
`LinterError` citing that name — before yielding that position's token
(exactly the first `i` tokens are yielded). -/
theorem validate_disallowed_raises_when_buffer_parses (allowed : List String)
    (ts : List (List Char)) (i : Nat) (prog : List PyExpr) (f : String)
    (hi : i < ts.length)
    (hprev : ∀ j, j < i → stepCheck allowed (bufAt ts j) = none)
    (hkw : forbiddenKwCheck (bufAt ts i) = false)
    (hparse : parseProgram (bufAt ts i) = some prog)
    (hbad : checkFunctionCalls allowed prog = some f) :
    validateStream allowed ts = (ts.take i, some (.disallowedCall f (bufAt ts i))) := by
  have hfire : stepCheck allowed ([] ++ (ts.take (i + 1)).flatten)
      = some (.disallowedCall f (bufAt ts i)) := by
    have hb : ([] : List Char) ++ (ts.take (i + 1)).flatten = bufAt ts i := by
      simp [bufAt]
    rw [hb]
    simp [stepCheck, hkw, hparse, hbad]
  have hprev2 : ∀ j, j < i → stepCheck allowed ([] ++ (ts.take (j + 1)).flatten) = none := by
    intro j hj
    simpa [bufAt] using hprev j hj
  have := validateGo_raise allowed ts i [] _ hi hprev2 hfire
  simpa [validateStream] using this

/-- C2, witness for the amended theorem at a concrete stream: `bad(`
followed by `)` raises `Disallowed function call: bad` while processing
token 1, yielding only token 0. -/
theorem c2_amended_witness :
    validateStream standardAllowed [("bad(").data, (")").data]
      = ([("bad(").data],
         some (.disallowedCall "bad" (bufAt [("bad(").data, (")").data] 1))) :=
  validate_disallowed_raises_when_buffer_parses standardAllowed
    [("bad(").data, (")").data] 1 [PyExpr.call (Atom.aname "bad") []] "bad"
    (by decide) (by decide) (by decide) (by decide) (by decide)

/-- C7: a stream whose full text never contains the forbidden keyword and
whose every parseable buffer prefix calls only allow-listed names has all
of its tokens yielded unchanged and in order. -/
theorem validate_passthrough (allowed : List String) (ts : List (List Char))
    (hkw : containsSeq forbiddenKw ts.flatten = false)
    (hcalls : ∀ j, j < ts.length → prefixCallsOk allowed ts j = true) :
    (validateStream allowed ts).1 = ts := by
  have hstep : ∀ j, j < ts.length →
      stepCheck allowed ([] ++ (ts.take (j + 1)).flatten) = none := by
    intro j hj
    have hpref : forbiddenKwCheck ((ts.take (j + 1)).flatten) = false := by
      refine forbiddenKwCheck_mono_prefix _ ((ts.drop (j + 1)).flatten) ?_
      rw [← List.flatten_append, List.take_append_drop]
      exact hkw
    have hc := hcalls j hj
    rw [List.nil_append]
    rw [stepCheck, hpref]
    simp only [Bool.false_eq_true, if_false]
    unfold prefixCallsOk bufAt at hc
    cases hp : parseProgram ((ts.take (j + 1)).flatten) with
    | none => rfl
    | some prog =>
      rw [hp] at hc
      simp only [Option.isNone_iff_eq_none] at hc
      simp [hc]
  have := validateGo_yield_all allowed ts [] hstep
  simp [validateStream, this]

/-- C7, witness: a clean two-token stream (`reflect(...)` then a newline
and `respond(...)`) passes through unchanged. -/
theorem c7_witness :
    (validateStream standardAllowed
      [("reflect(" ++ "\"" ++ "a" ++ "\"" ++ ")").data,
       ("\n" ++ "respond(" ++ "\"" ++ "b" ++ "\"" ++ ")").data]).1
      = [("reflect(" ++ "\"" ++ "a" ++ "\"" ++ ")").data,
         ("\n" ++ "respond(" ++ "\"" ++ "b" ++ "\"" ++ ")").data] :=
  validate_passthrough standardAllowed _ (by decide) (by decide)

/-- C9: the allow-list check inspects only calls whose function position
is a bare identifier.  For any allow-list whatsoever, a stream whose
parseable buffer prefixes contain only calls through non-identifier
targets (e.g. attribute accesses) never produces the
`Disallowed function call` violation, neither mid-stream nor in the final
full-buffer check. -/
theorem validate_never_flags_attribute_calls (allowed : List String)
    (ts : List (List Char))
    (h : ∀ j, j ≤ ts.length → prefixNoNameCalls ts j = true) :
    ∀ f c, (validateStream allowed ts).2 ≠ some (.disallowedCall f c) ∧
           (validateStream allowed ts).2 ≠ some (.finalDisallowedCall f c) := by
  have h2 : ∀ j, j ≤ ts.length →
      (match parseProgram ([] ++ (ts.take (j + 1)).flatten) with
       | some prog => prog.all noNameCallStmt
       | none => true) = true := by
    intro j hj
    have := h j hj
    simpa [prefixNoNameCalls, bufAt] using this
  exact validateGo_no_name_call_err allowed ts [] h2

/-- C9, witness: `obj.method("x")` with the empty allow-list is accepted
outright — the attribute-target call is never flagged. -/
theorem c9_witness :
    (validateStream [] [("obj.method(" ++ "\"" ++ "x" ++ "\"" ++ ")").data]).2 = none ∧
    ∀ f c,
      (validateStream [] [("obj.method(" ++ "\"" ++ "x" ++ "\"" ++ ")").data]).2
          ≠ some (.disallowedCall f c) ∧
      (validateStream [] [("obj.method(" ++ "\"" ++ "x" ++ "\"" ++ ")").data]).2
          ≠ some (.finalDisallowedCall f c) :=
  ⟨by decide,
   validate_never_flags_attribute_calls [] [("obj.method(" ++ "\"" ++ "x" ++ "\"" ++ ")").data]
     (by decide)⟩

/-- C10: the forbidden-construct rule is a raw substring test on the
accumulated buffer.  If the buffer first contains the character sequence
`import ` (anywhere — a string literal or comment included) once token `i`
has been appended, and validation reaches token `i` (no earlier token
triggered a violation), then `validate_stream` raises the
`Disallowed import statement` error while processing token `i`, before
yielding it: exactly the first `i` tokens are yielded. -/
theorem validate_forbidden_raises_at_first (allowed : List String)
    (ts : List (List Char)) (i : Nat)
    (hi : i < ts.length)
    (hfirst : forbiddenKwCheck (bufAt ts i) = true)
    (hbefore : ∀ j, j < i → stepCheck allowed (bufAt ts j) = none) :
    validateStream allowed ts = (ts.take i, some (.forbiddenFound (bufAt ts i))) := by
  have hfire : stepCheck allowed ([] ++ (ts.take (i + 1)).flatten)
      = some (.forbiddenFound (bufAt ts i)) := by
    have hb : ([] : List Char) ++ (ts.take (i + 1)).flatten = bufAt ts i := by
      simp [bufAt]
    rw [hb]
    simp [stepCheck, hfirst]
  have hprev2 : ∀ j, j < i → stepCheck allowed ([] ++ (ts.take (j + 1)).flatten) = none := by
    intro j hj
    simpa [bufAt] using hbefore j hj
  have := validateGo_raise allowed ts i [] _ hi hprev2 hfire
  simpa [validateStream] using this

/-- C10, witness: the forbidden sequence completes inside a string literal
(`reflect("please import os")` split across two tokens); the raw substring
test fires at token 1 before yielding it, even though no module is being
loaded. -/
theorem c10_witness :
    validateStream standardAllowed
        [("reflect(" ++ "\"" ++ "please ").data, ("import os" ++ "\"" ++ ")").data]
      = ([("reflect(" ++ "\"" ++ "please ").data],
         some (.forbiddenFound
           (bufAt [("reflect(" ++ "\"" ++ "please ").data, ("import os" ++ "\"" ++ ")").data] 1))) :=
  validate_forbidden_raises_at_first standardAllowed
    [("reflect(" ++ "\"" ++ "please ").data, ("import os" ++ "\"" ++ ")").data] 1
    (by decide) (by decide) (by decide)

theorem countKey_eq_keys_countP (st : Store) (k : String) :
    countKey st k = (st.map (·.1)).countP (fun s => s = k) := by
  rw [countKey, List.countP_map]
  rfl


theorem countP_keys_nodup_mem (l : List String) (k : String)
    (hn : l.Nodup) (hm : k ∈ l) : l.countP (fun s => s = k) = 1 := by
  induction l with
  | nil => cases hm
  | cons a t ih =>
    have hn2 := List.nodup_cons.mp hn
    rcases List.mem_cons.mp hm with h1 | hmt
    · have h0 : t.countP (fun s => s = k) = 0 :=
        List.countP_eq_zero.mpr (fun s hs => by
          simp only [decide_eq_true_eq]
          intro he
          exact hn2.1 (h1 ▸ he ▸ hs))
      have hak : a = k := h1.symm
      simp [List.countP_cons, hak, h0]
    · have hak : ¬(a = k) := fun he => hn2.1 (he ▸ hmt)
      have ht := ih hn2.2 hmt
      simp [List.countP_cons, hak, ht]

theorem storeHasKey_iff (st : Store) (k : String) :
    st.any (fun p => p.1 = k) = true ↔ k ∈ st.map (·.1) := by
  rw [List.any_eq_true, List.mem_map]
  constructor
  · rintro ⟨p, hp, he⟩
    exact ⟨p, hp, by simpa using he⟩
  · rintro ⟨p, hp, he⟩
    exact ⟨p, hp, by simpa using he⟩

theorem keys_replace (st : Store) (k : String) (v : StateEntry) :
    (st.map (fun p => if p.1 = k then (k, v) else p)).map (·.1) = st.map (·.1) := by
  rw [List.map_map]
  apply List.map_congr_left
  intro p _
  by_cases h : p.1 = k
  · simp [h]
  · simp [h]

theorem countKey_updateState_self (st : Store) (k : String) (v : StateEntry)
    (h : (st.map (·.1)).Nodup) : countKey (updateState st k v) k = 1 := by
  unfold updateState
  by_cases hmem : st.any (fun p => p.1 = k) = true
  · rw [if_pos hmem, countKey_eq_keys_countP, keys_replace]
    exact countP_keys_nodup_mem _ _ h ((storeHasKey_iff st k).mp hmem)
  · rw [if_neg hmem, countKey_eq_keys_countP, List.map_append, List.countP_append]
    have hnm : k ∉ st.map (·.1) := fun hk => hmem ((storeHasKey_iff st k).mpr hk)
    have h0 : (st.map (·.1)).countP (fun s => s = k) = 0 :=
      List.countP_eq_zero.mpr (fun s hs => by
        simp only [decide_eq_true_eq]
        intro he
        exact hnm (he ▸ hs))
    simp [h0]

theorem find?_replace_ne (k k2 : String) (v : StateEntry) (hne : ¬(k2 = k)) :
    ∀ t : List (String × StateEntry),
      (t.map (fun q => if q.1 = k then (k, v) else q)).find? (fun q => q.1 = k2)
        = t.find? (fun q => q.1 = k2) := by
  intro t
  induction t with
  | nil => rfl
  | cons q t iht =>
    by_cases hq : q.1 = k
    · have hq2 : ¬(q.1 = k2) := fun he => hne (by rw [← he, hq])
      have hk2 : ¬((k : String) = k2) := fun he => hne he.symm
      simp [List.find?_cons, hq, hq2, hk2, iht]
    · by_cases hq2 : q.1 = k2
      · simp [List.find?_cons, hq, hq2, hne]
      · simp [List.find?_cons, hq, hq2, iht]

theorem find?_append_single_ne (k k2 : String) (v : StateEntry) (hne : ¬(k2 = k)) :
    ∀ t : List (String × StateEntry),
      (t ++ [(k, v)]).find? (fun q => q.1 = k2) = t.find? (fun q => q.1 = k2) := by
  intro t
  induction t with
  | nil =>
    have hk2 : ¬((k : String) = k2) := fun he => hne he.symm
    simp [List.find?_cons, hk2]
  | cons q t iht =>
    by_cases hq2 : q.1 = k2
    · simp [List.find?_cons, hq2]
    · simp [List.find?_cons, hq2, iht]

theorem lookupState_updateState_ne (k k2 : String) (v : StateEntry)
    (hne : ¬(k2 = k)) (st : Store) :
    lookupState (updateState st k v) k2 = lookupState st k2 := by
  unfold updateState lookupState
  by_cases hmem : st.any (fun p => p.1 = k) = true
  · rw [if_pos hmem, find?_replace_ne k k2 v hne st]
  · rw [if_neg hmem, find?_append_single_ne k k2 v hne st]

theorem find?_replace_self (k : String) (v : StateEntry) :
    ∀ t : List (String × StateEntry), (t.any (fun q => q.1 = k)) = true →
      (t.map (fun q => if q.1 = k then (k, v) else q)).find? (fun q => q.1 = k)
        = some (k, v) := by
  intro t
  induction t with
  | nil => intro h; cases h
  | cons q t iht =>
    intro hany
    by_cases hq : q.1 = k
    · simp [List.find?_cons, hq]
    · have ht : (t.any (fun q => q.1 = k)) = true := by
        simpa [List.any_cons, hq] using hany
      simp [List.find?_cons, hq, iht ht]

theorem lookupState_updateState_self (k : String) (v : StateEntry) (st : Store) :
    lookupState (updateState st k v) k = some v := by
  unfold updateState lookupState
  by_cases hmem : st.any (fun p => p.1 = k) = true
  · rw [if_pos hmem, find?_replace_self k v st hmem]
    rfl
  · rw [if_neg hmem]
    have : st.find? (fun q => q.1 = k) = none := by
      rw [List.find?_eq_none]
      intro p hp
      simp only [decide_eq_true_eq]
      intro he
      exact hmem (List.any_eq_true.mpr ⟨p, hp, by simpa using he⟩)
    rw [List.find?_append, this]
    simp [List.find?_cons]

theorem deleteKey_fst_sublist (st : Store) (k : String) :
    (deleteKey st k).1.Sublist st := by
  unfold deleteKey
  by_cases hmem : st.any (fun p => p.1 = k) = true
  · rw [if_pos hmem]
    exact List.filter_sublist st
  · rw [if_neg hmem]

theorem applyScopeFn_store_sublist (fn : ScopeFn) (args : List Value) (store : Store) :
    (applyScopeFn fn args store).2.Sublist store := by
  cases fn with
  | pureTool f =>
    cases hfa : f args with
    | ok v => simp [applyScopeFn, hfa]
    | error m => simp [applyScopeFn, hfa]
  | respondFn =>
    rcases args with _ | ⟨v, _ | ⟨w, rest⟩⟩ <;> simp [applyScopeFn]
  | continueTurnFn =>
    rcases args with _ | ⟨v, rest⟩ <;> simp [applyScopeFn]
  | reflectFn =>
    rcases args with _ | ⟨v, _ | ⟨w, rest⟩⟩ <;> simp [applyScopeFn]
  | deleteStateKeyFn =>
    rcases args with _ | ⟨v, _ | ⟨w, rest⟩⟩
    · simp [applyScopeFn]
    · cases v with
      | vstr k => simpa [applyScopeFn] using deleteKey_fst_sublist store k
      | vnone => simp [applyScopeFn]
      | vbool b => simp [applyScopeFn]
      | vfunc n => simp [applyScopeFn]
      | vbuiltinF n => simp [applyScopeFn]
      | vraw t => simp [applyScopeFn]
    · simp [applyScopeFn]
  | summarizeStateFn =>
    rcases args with _ | ⟨v, rest⟩ <;> simp [applyScopeFn]

theorem scopeFind_mem (sc : Scope) (k : String) (fn : ScopeFn)
    (h : scopeFind sc k = some fn) : ∃ p ∈ sc, p.1 = k ∧ p.2 = fn := by
  unfold scopeFind at h
  cases hf : sc.find? (fun p => p.1 = k) with
  | none => rw [hf] at h; cases h
  | some q =>
    rw [hf] at h
    simp only [Option.map_some'] at h
    refine ⟨q, List.mem_of_find?_eq_some hf, ?_, Option.some.inj h⟩
    have := List.find?_some hf
    simpa using this

/-- Conservative syntactic condition under which a statement is known not
to touch the store entry of capability `cap`: a plain non-call expression
statement, or a call through a bare identifier that names neither `cap`,
nor the deletion primitive, nor an injected Python builtin.  Calls through
any other target shape are excluded outright, because CPython can
dispatch them back into the scope — an attribute-target call such as
`search_web.__call__(...)` re-invokes the wrapped capability, and builtin
calls such as `eval(...)` can reach any scope callable, including
`delete_state_key`. -/
def stmtAvoidsKey (cap : String) : PyExpr → Bool
  | PyExpr.atomE _ => true
  | PyExpr.call (Atom.aname f) _ =>
      !(f = cap) && !(f = "delete_state_key") && !(pythonBuiltinNames.contains f)
  | PyExpr.call _ _ => false

theorem wrapToolCall_lookup_preserved (sc : Scope) (cap f : String)
    (fn : ScopeFn) (vs : List Value) (st : ExecState)
    (hscope : ∀ p ∈ sc, p.2 = ScopeFn.deleteStateKeyFn → p.1 = "delete_state_key")
    (hfind : scopeFind sc f = some fn)
    (hfc : ¬(f = cap)) (hfd : ¬(f = "delete_state_key")) :
    lookupState ((wrapToolCall f fn vs st).2).store cap = lookupState st.store cap := by
  have hfn : ¬(fn = ScopeFn.deleteStateKeyFn) := by
    intro hdel
    obtain ⟨p, hp, hp1, hp2⟩ := scopeFind_mem sc f fn hfind
    exact hfd (hp1 ▸ hscope p hp (hp2.trans hdel))
  have hstore : (applyScopeFn fn vs st.store).2 = st.store := by
    cases fn with
    | pureTool g =>
      cases hga : g vs with
      | ok v => simp [applyScopeFn, hga]
      | error m => simp [applyScopeFn, hga]
    | respondFn => rcases vs with _ | ⟨v, _ | ⟨w, rest⟩⟩ <;> simp [applyScopeFn]
    | continueTurnFn => rcases vs with _ | ⟨v, rest⟩ <;> simp [applyScopeFn]
    | reflectFn => rcases vs with _ | ⟨v, _ | ⟨w, rest⟩⟩ <;> simp [applyScopeFn]
    | deleteStateKeyFn => exact absurd rfl hfn
    | summarizeStateFn => rcases vs with _ | ⟨v, rest⟩ <;> simp [applyScopeFn]
  unfold wrapToolCall
  cases hr : (applyScopeFn fn vs st.store).1 with
  | error i => simp [hr, hstore]
  | ok v =>
    by_cases hv : v = Value.vnone
    · simp [hr, hstore, hv]
    · simp only [hr, hstore, hv, if_neg hv]
      exact lookupState_updateState_ne f cap _ (fun he => hfc (he.symm)) st.store

theorem evalStmt_lookup_preserved (sc : Scope) (cap : String) (e : PyExpr)
    (st : ExecState)
    (hscope : ∀ p ∈ sc, p.2 = ScopeFn.deleteStateKeyFn → p.1 = "delete_state_key")
    (he : stmtAvoidsKey cap e = true) :
    lookupState ((evalStmt sc e st).2).store cap = lookupState st.store cap := by
  cases e with
  | atomE a =>
    cases ha : evalAtom sc a with
    | ok v => simp [evalStmt, ha]
    | error m => simp [evalStmt, ha]
  | call fnA args =>
    cases fnA with
    | aname f =>
      have hfc : (¬(f = cap) ∧ ¬(f = "delete_state_key")) ∧ f ∉ pythonBuiltinNames := by
        simpa [stmtAvoidsKey] using he
      by_cases hreg : (scopeNames sc).contains f = true
      · have hreg2 : f ∈ scopeNames sc := by simpa using hreg
        have hA2 : evalAtom sc (Atom.aname f) = Except.ok (Value.vfunc f) := by
          simp [evalAtom, hreg2]
        cases hVs : evalAtoms sc args with
        | error m => simp [evalStmt, hA2, hVs]
        | ok vs =>
          cases hF : scopeFind sc f with
          | none => simp [evalStmt, hA2, hVs, hF]
          | some fn =>
            have := wrapToolCall_lookup_preserved sc cap f fn vs st hscope hF hfc.1.1 hfc.1.2
            simpa [evalStmt, hA2, hVs, hF] using this
      · have hreg2 : ¬(f ∈ scopeNames sc) := by simpa using hreg
        by_cases hbl : pythonBuiltinNames.contains f = true
        · exact absurd (by simpa using hbl) hfc.2
        · have hbl2 : ¬(f ∈ pythonBuiltinNames) := by simpa using hbl
          have hA2 : evalAtom sc (Atom.aname f)
              = Except.error ("NameError: name " ++ f ++ " is not defined") := by
            simp [evalAtom, hreg2, hbl2]
          simp [evalStmt, hA2]
    | aattr b g =>
      simp [stmtAvoidsKey] at he
    | astr s =>
      simp [stmtAvoidsKey] at he

theorem executeScript_lookup_preserved (sc : Scope) (cap : String)
    (hscope : ∀ p ∈ sc, p.2 = ScopeFn.deleteStateKeyFn → p.1 = "delete_state_key") :
    ∀ (post : List PyExpr) (st : ExecState),
      post.all (stmtAvoidsKey cap) = true →
      lookupState ((executeScript sc post st).2).store cap = lookupState st.store cap := by
  intro post
  induction post with
  | nil => intro st _; rfl
  | cons e rest ih =>
    intro st hall
    rw [List.all_cons, Bool.and_eq_true] at hall
    have hstep := evalStmt_lookup_preserved sc cap e st hscope hall.1
    cases hv : evalStmt sc e st with
    | mk r st2 =>
      rw [hv] at hstep
      cases r with
      | ok v =>
        have := ih st2 hall.2
        simpa [executeScript, hv] using this.trans hstep
      | error i =>
        cases i with
        | ctl s => simpa [executeScript, hv] using hstep
        | exc m => simpa [executeScript, hv] using hstep

/-- C3, counterexample.  The claim asserts that after `execute` returns or
raises, the store holds exactly one entry under the invoked capability's
name.  But `delete_state_key` is itself a registered capability: a script
that invokes `search_web` (whose handler returns a non-empty result) and
then deletes that key finishes with *no* entry under `search_web`. -/
theorem c3_counterexample_delete_uncommits :
    (evalStmt sampleScope
        (PyExpr.call (Atom.aname "search_web") [Atom.astr "x"]) emptyExecState).1
      = Except.ok (Value.vraw "search_web result") ∧
    (executeScript sampleScope
        [PyExpr.call (Atom.aname "search_web") [Atom.astr "x"],
         PyExpr.call (Atom.aname "delete_state_key") [Atom.astr "search_web"],
         PyExpr.call (Atom.aname "respond") [Atom.astr "done"]] emptyExecState).1
      = ExecResult.signal (Sig.respondSig (Value.vstr "done")) ∧
    countKey (executeScript sampleScope
        [PyExpr.call (Atom.aname "search_web") [Atom.astr "x"],
         PyExpr.call (Atom.aname "delete_state_key") [Atom.astr "search_web"],
         PyExpr.call (Atom.aname "respond") [Atom.astr "done"]] emptyExecState).2.store
        "search_web" = 0 := by
  decide

/-- C3, amended: when a statement invokes capability `cap` and the wrapped
handler returns a non-`None` value `v`, then immediately after the
invocation the store holds exactly one entry under `cap`, carrying `v` and
a turn id fresh with respect to everything stored before; and that entry
survives the rest of the script as long as every later statement satisfies
`stmtAvoidsKey`: a plain expression statement, or a call through a bare
identifier naming neither `cap`, nor `delete_state_key`, nor a Python
builtin.  (It need not survive arbitrary later statements — see the
counterexample; and statements excluded by `stmtAvoidsKey` really can
reach the entry, e.g. `cap.__call__(...)` re-invokes the capability and
`eval(...)` can reach the deletion primitive, which is why the condition
is this strict.)  The key-uniqueness and id-bound hypotheses are the store
invariants maintained by the session. -/
theorem capability_commit_fresh_entry (sc : Scope) (cap : String) (args : List Atom)
    (st stAfter : ExecState) (v : Value)
    (hscope : ∀ p ∈ sc, p.2 = ScopeFn.deleteStateKeyFn → p.1 = "delete_state_key")
    (hnodup : (st.store.map (·.1)).Nodup)
    (hids : ∀ p ∈ st.store, p.2.turnId < st.nextId)
    (hrun : evalStmt sc (PyExpr.call (Atom.aname cap) args) st = (Except.ok v, stAfter))
    (hv : ¬(v = Value.vnone)) :
    countKey stAfter.store cap = 1 ∧
    lookupState stAfter.store cap
      = some { result := v, timestampUtc := st.nextId, turnId := st.nextId } ∧
    (∀ p ∈ st.store, ¬(p.2.turnId = st.nextId)) ∧
    (∀ post : List PyExpr, post.all (stmtAvoidsKey cap) = true →
      lookupState ((executeScript sc post stAfter).2).store cap
        = lookupState stAfter.store cap) := by
  by_cases hreg : cap ∈ scopeNames sc
  · have hA2 : evalAtom sc (Atom.aname cap) = Except.ok (Value.vfunc cap) := by
      simp [evalAtom, hreg]
    cases hVs : evalAtoms sc args with
    | error m => simp [evalStmt, hA2, hVs] at hrun
    | ok vs =>
      cases hF : scopeFind sc cap with
      | none => simp [evalStmt, hA2, hVs, hF] at hrun
      | some fn =>
        simp only [evalStmt, hA2, hVs, hF] at hrun
        unfold wrapToolCall at hrun
        rcases hAP : applyScopeFn fn vs st.store with ⟨res, store2⟩
        rw [hAP] at hrun
        cases res with
        | error i => simp at hrun
        | ok w =>
          by_cases hw : w = Value.vnone
          · simp only [hw, if_pos rfl] at hrun
            rw [Prod.ext_iff] at hrun
            exact absurd (Except.ok.inj hrun.1).symm (by simpa [hw] using hv)
          · simp only [if_neg hw] at hrun
            rw [Prod.ext_iff] at hrun
            obtain ⟨hrv, hrs⟩ := hrun
            have hwv : w = v := Except.ok.inj hrv
            subst hwv
            subst hrs
            have hsub : store2.Sublist st.store := by
              have := applyScopeFn_store_sublist fn vs st.store
              rwa [hAP] at this
            have hnodup2 : (store2.map (·.1)).Nodup :=
              List.Nodup.sublist (hsub.map (·.1)) hnodup
            refine ⟨?_, ?_, ?_, ?_⟩
            · exact countKey_updateState_self store2 cap _ hnodup2
            · exact lookupState_updateState_self cap _ store2
            · intro p hp heq
              exact absurd heq (Nat.ne_of_lt (hids p hp))
            · intro post hall
              exact executeScript_lookup_preserved sc cap hscope post _ hall
  · have hreg2 : ¬((scopeNames sc).contains cap = true) := by simpa using hreg
    by_cases hbl : cap ∈ pythonBuiltinNames
    · have hA2 : evalAtom sc (Atom.aname cap) = Except.ok (Value.vbuiltinF cap) := by
        simp [evalAtom, hreg, hbl]
      cases hVs : evalAtoms sc args with
      | error m => simp [evalStmt, hA2, hVs] at hrun
      | ok vs => simp [evalStmt, hA2, hVs] at hrun
    · have hA2 : evalAtom sc (Atom.aname cap)
          = Except.error ("NameError: name " ++ cap ++ " is not defined") := by
        simp [evalAtom, hreg, hbl]
      simp [evalStmt, hA2] at hrun

theorem sampleScope_eq :
    sampleScope =
      [("read_files", ScopeFn.pureTool (fun _ => Except.ok (Value.vraw ("read_files" ++ " result")))),
       ("write_file", ScopeFn.pureTool (fun _ => Except.ok (Value.vraw ("write_file" ++ " result")))),
       ("list_files", ScopeFn.pureTool (fun _ => Except.ok (Value.vraw ("list_files" ++ " result")))),
       ("search_web", ScopeFn.pureTool (fun _ => Except.ok (Value.vraw ("search_web" ++ " result")))),
       ("find_function_definitions", ScopeFn.pureTool (fun _ => Except.ok (Value.vraw ("find_function_definitions" ++ " result")))),
       ("find_class_definitions", ScopeFn.pureTool (fun _ => Except.ok (Value.vraw ("find_class_definitions" ++ " result")))),
       ("find_imports", ScopeFn.pureTool (fun _ => Except.ok (Value.vraw ("find_imports" ++ " result")))),
       ("respond", ScopeFn.respondFn),
       ("continue_turn", ScopeFn.continueTurnFn),
       ("reflect", ScopeFn.reflectFn),
       ("delete_state_key", ScopeFn.deleteStateKeyFn),
       ("summarize_state", ScopeFn.summarizeStateFn)] := by
  rfl

theorem sampleScope_deleteOnly :
    ∀ p ∈ sampleScope, p.2 = ScopeFn.deleteStateKeyFn → p.1 = "delete_state_key" := by
  intro p hp h
  rw [sampleScope_eq] at hp
  simp only [List.mem_cons, List.not_mem_nil, or_false] at hp
  rcases hp with rfl | rfl | rfl | rfl | rfl | rfl | rfl | rfl | rfl | rfl | rfl | rfl <;>
    simp_all

/-- C3, witness for the amended theorem: invoking `search_web` on the
empty session store commits exactly one `search_web` entry carrying the
handler result and the fresh id 0. -/
theorem c3_amended_witness :
    countKey [("search_web",
        { result := Value.vraw "search_web result", timestampUtc := 0, turnId := 0 })]
      "search_web" = 1 ∧
    lookupState [("search_web",
        { result := Value.vraw "search_web result", timestampUtc := 0, turnId := 0 })]
      "search_web"
      = some { result := Value.vraw "search_web result", timestampUtc := 0, turnId := 0 } := by
  have h := capability_commit_fresh_entry sampleScope "search_web" [Atom.astr "x"]
    emptyExecState
    { store := [("search_web",
        { result := Value.vraw "search_web result", timestampUtc := 0, turnId := 0 })],
      nextId := 1 }
    (Value.vraw "search_web result")
    sampleScope_deleteOnly (by simp [emptyExecState]) (by simp [emptyExecState])
    (by decide) (by decide)
  exact ⟨h.1, h.2.1⟩

/-- C1: the sandbox scope is *not* the only source of resolvable names.
`_create_execution_scope` builds a dictionary holding exactly the
registered tools and core functions, but `execute_script` hands that
dictionary to Python's `exec`, which silently inserts `__builtins__` into
a globals dict lacking that key — so ambient host facilities such as
`open` resolve from any script even though `open` is registered nowhere:
the script consisting of the bare name `open` runs without a `NameError`.
The spec's sandbox requirement is the evident intent; the leak is a slip
in the code. -/
theorem exec_scope_leaks_python_builtins :
    ((scopeNames sampleScope).contains "open" = false) ∧
    evalAtom sampleScope (Atom.aname "open") = Except.ok (Value.vbuiltinF "open") ∧
    executeScript sampleScope [PyExpr.atomE (Atom.aname "open")] emptyExecState
      = (ExecResult.normal, emptyExecState) := by
  decide

/-- C4: a script whose every statement runs without fault and without a
control signal makes `execute_script` return normally, which the
controller immediately converts into the missing-completion
`ScriptExecutionError` — the attempt is a reported failure, never a
success. -/
theorem silent_completion_reported_as_execution_error (allowed : List String)
    (sc : Scope) (tokens : List (List Char)) (st st2 : ExecState) (prog : List PyExpr)
    (hvalid : (validateStream allowed tokens).2 = none)
    (hparse : parseProgram tokens.flatten = some prog)
    (hrun : executeScript sc prog st = (ExecResult.normal, st2)) :
    runAttempt allowed sc tokens st = (.execFailed missingCompletionMsg, st2) := by
  simp [runAttempt, hvalid, hparse, hrun]

/-- C4, witness: a lint-clean script consisting only of `reflect("hi")`
executes every statement without fault, yet the attempt outcome is the
missing-completion `ScriptExecutionError`. -/
theorem c4_witness :
    runAttempt standardAllowed sampleScope
      [("reflect(" ++ "\"" ++ "hi" ++ "\"" ++ ")").data] emptyExecState
      = (.execFailed missingCompletionMsg, emptyExecState) :=
  silent_completion_reported_as_execution_error standardAllowed sampleScope
    [("reflect(" ++ "\"" ++ "hi" ++ "\"" ++ ")").data] emptyExecState emptyExecState
    [PyExpr.call (Atom.aname "reflect") [Atom.astr "hi"]]
    (by decide) (by decide) (by decide)

/-- A failed attempt of the inner correction loop: a `LinterError` or a
`ScriptExecutionError` (runtime fault or missing completion signal) — the
two outcomes that increment `correction_attempts` and retry. -/
def attemptFails : AttemptResult → Bool
  | .linterRejected _ => true
  | .execFailed _ => true
  | .respondedA _ => false
  | .continuedA => false

/-- C5: the correction loop bound.  If the first three attempts all fail —
whether by linter rejection or by execution failure, states threading
through the executed-but-failed attempts — the turn ends in the
abandonment outcome: an ordinary returned value (not a crash), carrying
the state reached after the third attempt (failed executions keep their
committed effects); and the result does not depend on what the generator
would produce on any attempt index at or beyond 3 — no fourth attempt is
ever generated. -/
theorem correction_loop_aborts_after_three (allowed : List String) (sc : Scope)
    (gen gen2 : Nat → List (List Char)) (st0 st1 st2 st3 : ExecState)
    (r0 r1 r2 : AttemptResult)
    (h0 : runAttempt allowed sc (gen 0) st0 = (r0, st1))
    (h1 : runAttempt allowed sc (gen 1) st1 = (r1, st2))
    (h2 : runAttempt allowed sc (gen 2) st2 = (r2, st3))
    (hf0 : attemptFails r0 = true)
    (hf1 : attemptFails r1 = true)
    (hf2 : attemptFails r2 = true)
    (hagree : ∀ k, k < 3 → gen2 k = gen k) :
    correctionLoop allowed sc gen2 st0 = (TurnOutcome.abortedT, st3) := by
  have step : ∀ (rem idx : Nat) (s s2 : ExecState) (r : AttemptResult),
      runAttempt allowed sc (gen2 idx) s = (r, s2) → attemptFails r = true →
      correctionLoopGo allowed sc gen2 (rem + 1) idx s
        = correctionLoopGo allowed sc gen2 rem (idx + 1) s2 := by
    intro rem idx s s2 r hr hf
    cases r with
    | linterRejected e => simp [correctionLoopGo, hr]
    | execFailed m => simp [correctionLoopGo, hr]
    | respondedA v => simp [attemptFails] at hf
    | continuedA => simp [attemptFails] at hf
  show correctionLoopGo allowed sc gen2 3 0 st0 = (TurnOutcome.abortedT, st3)
  rw [step 2 0 st0 st1 r0 (by rw [hagree 0 (by omega)]; exact h0) hf0]
  rw [step 1 1 st1 st2 r1 (by rw [hagree 1 (by omega)]; exact h1) hf1]
  rw [step 0 2 st2 st3 r2 (by rw [hagree 2 (by omega)]; exact h2) hf2]
  rfl

/-- C5, witness: attempt 0 is a linter rejection (`bad()` calls an
unregistered name), attempt 1 an execution failure with no internal fault
(`reflect("a")` completes without a signal), attempt 2 an execution
failure after committing a tool result (`search_web("q")`); the turn ends
in abandonment with the third attempt's committed entry still in the
store, whatever the generator would produce from attempt 3 onward. -/
theorem c5_witness :
    correctionLoop standardAllowed sampleScope
      (fun k => if k = 0 then [("bad()").data]
        else if k = 1 then [("reflect(" ++ "\"" ++ "a" ++ "\"" ++ ")").data]
        else [("search_web(" ++ "\"" ++ "q" ++ "\"" ++ ")").data])
      emptyExecState
      = (TurnOutcome.abortedT,
         { store := [("search_web",
             { result := Value.vraw "search_web result", timestampUtc := 0, turnId := 0 })],
           nextId := 1 }) :=
  correction_loop_aborts_after_three standardAllowed sampleScope
    (fun k => if k = 0 then [("bad()").data]
      else if k = 1 then [("reflect(" ++ "\"" ++ "a" ++ "\"" ++ ")").data]
      else [("search_web(" ++ "\"" ++ "q" ++ "\"" ++ ")").data])
    (fun k => if k = 0 then [("bad()").data]
      else if k = 1 then [("reflect(" ++ "\"" ++ "a" ++ "\"" ++ ")").data]
      else [("search_web(" ++ "\"" ++ "q" ++ "\"" ++ ")").data])
    emptyExecState emptyExecState emptyExecState
    { store := [("search_web",
        { result := Value.vraw "search_web result", timestampUtc := 0, turnId := 0 })],
      nextId := 1 }
    (AttemptResult.linterRejected (LinterErr.disallowedCall "bad" ("bad()").data))
    (AttemptResult.execFailed missingCompletionMsg)
    (AttemptResult.execFailed missingCompletionMsg)
    (by decide) (by decide) (by decide) (by decide) (by decide) (by decide)
    (fun _ _ => rfl)

/-- C6: a script of exactly `reflect(analysis)` then `respond(x)` makes
`execute_script` terminate with the propagated `Respond` signal carrying
`x` — the `ControlFlowException` branch re-raises it rather than wrapping
it into `ScriptExecutionError` — and returns the execution state exactly
as it was: `reflect` returns `None` so the wrapper commits nothing, and
`respond` raises before the wrapper can commit. -/
theorem reflect_respond_terminates_with_signal (analysis x : String) (st : ExecState) :
    executeScript sampleScope
      [PyExpr.call (Atom.aname "reflect") [Atom.astr analysis],
       PyExpr.call (Atom.aname "respond") [Atom.astr x]] st
      = (ExecResult.signal (Sig.respondSig (Value.vstr x)), st) := by
  rfl

/-- C8: sequencing and the absence of rollback.  Executing `pre ++ rest`
runs `pre` first; only when `pre` finishes normally does `rest` run, and
it runs from exactly the state `pre` produced — its commits are in place,
in invocation order, before any effect of `rest`.  When execution stops
inside `pre` (signal or error), the result and state are those reached at
the stopping point: every effect committed before it persists, none is
rolled back. -/
theorem executeScript_append_no_rollback (sc : Scope) (pre rest : List PyExpr)
    (st : ExecState) :
    executeScript sc (pre ++ rest) st
      = (match executeScript sc pre st with
         | (ExecResult.normal, st2) => executeScript sc rest st2
         | r => r) := by
  induction pre generalizing st with
  | nil => simp [executeScript]
  | cons e es ih =>
    rw [List.cons_append]
    cases hv : evalStmt sc e st with
    | mk r st2 =>
      cases r with
      | ok v => simp [executeScript, hv, ih st2]
      | error i =>
        cases i with
        | ctl s => simp [executeScript, hv]
        | exc m => simp [executeScript, hv]
